import Mathlib

/-!
Shallow embedding of the nestjs-file-uploader core: storage strategies
(local filesystem, S3-compatible object store), the storage factory
(backend registry), the file service and the folder service, together with
theorems checking the specification claims against this embedding.

Database identifiers (uuid strings in the source) are modelled as Nat;
timestamps as Nat; byte buffers by their observable attributes.  All
asynchronous methods are modelled as pure state-passing functions; a thrown
exception is an Except error value, and a method that catches an exception
and returns a result object is a total function returning that result.
-/

deriving instance DecidableEq for Except

namespace FileUploader

/-- Storage backend kinds, from the StorageType enum in file.entity.ts. -/
inductive StorageType where
  | LOCAL
  | AWS_S3
  | DIGITAL_OCEAN
  | LINUX_FOLDER
deriving DecidableEq, Repr

/-- A row of the files table (file.entity.ts), restricted to the columns the
claims touch.  deletedAt is the soft-delete marker. -/
structure FileRec where
  id : Nat
  name : String
  originalName : String
  path : String
  url : Option String
  size : Nat
  mimetype : String
  extension : String
  storageType : StorageType
  storageBucket : Option String
  storageKey : Option String
  folderId : Option Nat
  uploadedBy : Option String
  deletedAt : Option Nat
  deletedBy : Option String
deriving DecidableEq, Repr

/-- A row of the folders table (folder.entity.ts).  fileCount and totalSize
are the cached aggregate columns (default 0). -/
structure FolderRec where
  id : Nat
  name : String
  path : String
  parentId : Option Nat
  isPublic : Bool
  fileCount : Nat
  totalSize : Nat
  createdBy : Option String
  deletedAt : Option Nat
  deletedBy : Option String
deriving DecidableEq, Repr

/-- The relational store: the files and folders tables. -/
structure DB where
  files : List FileRec
  folders : List FolderRec
deriving DecidableEq, Repr

/-- Result object returned by strategy delete methods
(storage-strategy.interface.ts, FileDeleteResult). -/
structure FileDeleteResult where
  success : Bool
  message : Option String
deriving DecidableEq, Repr

/-- Result object returned by strategy upload methods
(storage-strategy.interface.ts, FileUploadResult). -/
structure FileUploadResult where
  path : String
  url : Option String
  key : Option String
  bucket : Option String
  size : Nat
  mimetype : String
deriving DecidableEq, Repr

/-- Model of node path.join for the two-argument uses in local.strategy.ts. -/
def joinPath (dir filename : String) : String :=
  dir ++ "/" ++ filename

/-- State of the local filesystem: the set of existing full paths, as a list. -/
structure LocalState where
  fs : List String
deriving DecidableEq, Repr

/-- LocalStorageStrategy.delete (local.strategy.ts lines 103-118): if the
full path exists it is unlinked and success true is returned, otherwise
success false with the message File not found.  The try block catches any
error, so the method never throws. -/
def LocalStorageStrategy.delete (uploadPath : String) (s : LocalState)
    (filepath : String) : LocalState × FileDeleteResult :=
  let fullPath := joinPath uploadPath filepath
  if s.fs.contains fullPath then
    (⟨s.fs.filter (fun p => p ≠ fullPath)⟩,
      ⟨true, some "File deleted successfully"⟩)
  else
    (s, ⟨false, some "File not found"⟩)

/-- LocalStorageStrategy.upload (local.strategy.ts lines 54-86): writes the
buffer at the joined full path and returns path, public url, size and
mimetype.  writeErr models an I/O failure of the underlying write, which the
method rethrows.  bufSize and mimetype describe the incoming buffer. -/
def LocalStorageStrategy.upload (uploadPath : String) (baseUrl : String)
    (writeErr : Option String) (s : LocalState) (bufSize : Nat)
    (mimetype : String) (filename : String) :
    Except String (LocalState × FileUploadResult) :=
  match writeErr with
  | some e => .error e
  | none =>
    let fullPath := joinPath uploadPath filename
    let publicUrl := if baseUrl = "" then "" else baseUrl ++ "/" ++ filename
    .ok (⟨fullPath :: s.fs.filter (fun p => p ≠ fullPath)⟩,
      ⟨fullPath, some publicUrl, none, none, bufSize, mimetype⟩)

/-- State of an S3-compatible bucket: the set of existing keys. -/
structure S3State where
  objects : List String
deriving DecidableEq, Repr

/-- Modelled external S3 client call for DeleteObjectCommand: per the S3
API, deleting a key succeeds whether or not the key exists; net carries a
thrown network or service error when present. -/
def s3SendDeleteObject (net : Option String) (objects : List String)
    (key : String) : Except String (List String) :=
  match net with
  | some e => .error e
  | none => .ok (objects.filter (fun k => k ≠ key))

/-- AWSS3Strategy.delete (aws-s3.strategy.ts lines 106-121): sends a
DeleteObjectCommand; on success returns success true, and the catch block
turns any thrown error into success false with its message, so the method
never throws. -/
def AWSS3Strategy.delete (net : Option String) (s : S3State) (key : String) :
    S3State × FileDeleteResult :=
  match s3SendDeleteObject net s.objects key with
  | .ok objs => (⟨objs⟩, ⟨true, some "File deleted successfully"⟩)
  | .error e => (s, ⟨false, some e⟩)

/-- Response of the modelled S3 batch-delete client call: the response body
carries per-key errors which the strategy ignores. -/
structure S3BatchResponse where
  remaining : List String
  perKeyErrors : List (String × String)
deriving DecidableEq, Repr

/-- Modelled external S3 client call for DeleteObjectsCommand: succeeds with
a response (possibly carrying per-key errors in its body) unless a network
or service error is thrown. -/
def s3SendDeleteObjects (net : Option String)
    (perKeyErrors : List (String × String)) (objects : List String)
    (keys : List String) : Except String S3BatchResponse :=
  match net with
  | some e => .error e
  | none => .ok ⟨objects.filter (fun k => ¬ keys.contains k), perKeyErrors⟩

/-- AWSS3Strategy.deleteMultiple (aws-s3.strategy.ts lines 123-148): sends a
single DeleteObjectsCommand for all keys; when the call does not throw it
maps every key to success true (the per-key errors of the response are
discarded); when it throws it maps every key to success false with the
thrown message. -/
def AWSS3Strategy.deleteMultiple (net : Option String)
    (perKeyErrors : List (String × String)) (s : S3State)
    (keys : List String) : S3State × List FileDeleteResult :=
  match s3SendDeleteObjects net perKeyErrors s.objects keys with
  | .ok resp =>
    (⟨resp.remaining⟩, keys.map (fun _ => ⟨true, some "File deleted successfully"⟩))
  | .error e =>
    (s, keys.map (fun _ => ⟨false, some e⟩))

/-- StorageFactory.getStrategy (storage.factory.ts lines 63-73): the
registry is modelled by its list of registered kinds in registration order;
an unregistered kind throws. -/
def StorageFactory.getStrategy (registered : List StorageType)
    (t : StorageType) : Except String StorageType :=
  if registered.contains t then .ok t
  else .error "Storage strategy not found for type"

/-- StorageFactory.getDefaultStrategy (storage.factory.ts lines 78-86):
returns the first value of the strategies map, which is the first-registered
kind; throws when the registry is empty. -/
def StorageFactory.getDefaultStrategy (registered : List StorageType) :
    Except String StorageType :=
  match registered.head? with
  | some t => .ok t
  | none => .error "No storage strategies available"

/-- Repository lookup findOne where id, default scope (soft-deleted rows
excluded), on the files table. -/
def findFile (db : DB) (id : Nat) : Option FileRec :=
  db.files.find? (fun f => f.id == id && f.deletedAt.isNone)

/-- Repository lookup findOne where id with withDeleted true, files table. -/
def findFileWithDeleted (db : DB) (id : Nat) : Option FileRec :=
  db.files.find? (fun f => f.id == id)

/-- Repository lookup findOne where id, default scope, folders table. -/
def findFolder (db : DB) (id : Nat) : Option FolderRec :=
  db.folders.find? (fun f => f.id == id && f.deletedAt.isNone)

/-- Repository lookup findOne where id with withDeleted true, folders table. -/
def findFolderWithDeleted (db : DB) (id : Nat) : Option FolderRec :=
  db.folders.find? (fun f => f.id == id)

/-- The non-deleted files whose folderId equals the given folder id: the
rows matched by the stats query folderId = :folderId and deletedAt IS NULL. -/
def liveFilesIn (db : DB) (folderId : Nat) : List FileRec :=
  db.files.filter (fun f => f.folderId == some folderId && f.deletedAt.isNone)

/-- FileService.updateFolderStats (file.service.ts lines 587-600): runs the
count and sum query over non-deleted files of the folder and writes the
results into the fileCount and totalSize columns of that folder row. -/
def updateFolderStats (db : DB) (folderId : Nat) : DB :=
  let count := (liveFilesIn db folderId).length
  let total := ((liveFilesIn db folderId).map (fun f => f.size)).sum
  ⟨db.files,
   db.folders.map (fun fol =>
     if fol.id == folderId then
       { fol with fileCount := count, totalSize := total }
     else fol)⟩

/-- Exception taxonomy of file-upload.exceptions.ts, restricted to the
exceptions reachable from the modelled operations. -/
inductive Err where
  | fileNotFound (id : Nat)
  | folderNotFound (id : Nat)
  | fileAlreadyDeleted (id : Nat)
  | folderNotEmpty (id : Nat)
  | storageOperation (op : String) (msg : String)
  | cycleError
  | fuelExhausted
deriving DecidableEq, Repr

/-- Human message carried by each exception (file-upload.exceptions.ts);
quote characters of the source templates are elided. -/
def Err.message : Err → String
  | .fileNotFound id => "File with ID " ++ toString id ++ " not found"
  | .folderNotFound id => "Folder with ID " ++ toString id ++ " not found"
  | .fileAlreadyDeleted id => "File with ID " ++ toString id ++ " is already deleted"
  | .folderNotEmpty id =>
      "Folder with ID " ++ toString id ++ " is not empty. Delete or move files first."
  | .storageOperation op msg => "Storage operation " ++ op ++ " failed: " ++ msg
  | .cycleError => "Cannot move folder into itself or its descendants"
  | .fuelExhausted => "recursion fuel exhausted"

/-- Observable side-effect events of a service operation, in the order the
source performs them. -/
inductive Event where
  | backendWrite (filename : String)
  | rowInsert (fileId : Nat)
  | backendDelete (path : String) (success : Bool)
  | fileRowRemove (fileId : Nat)
  | filesOfFolderRemove (folderId : Nat)
  | folderRowRemove (folderId : Nat)
deriving DecidableEq, Repr

/-- Combined state of a deployment: the database plus the physical storage.
The claims about the services concern their control flow and metadata
effects, which do not depend on which concrete backend performs the bytes,
so the physical layer is instantiated with the local strategy. -/
structure SysState where
  db : DB
  storage : LocalState
deriving DecidableEq, Repr

/-- Module configuration: local strategy config plus the registered backend
kinds of the StorageFactory in registration order. -/
structure Config where
  uploadPath : String
  baseUrl : String
  registered : List StorageType
deriving DecidableEq, Repr

/-- Outcome of a service operation: resulting state, returned value or
thrown exception, and the trace of side-effect events performed. -/
structure OpOut (α : Type) where
  state : SysState
  result : Except Err α
  trace : List Event
deriving Repr

/-- Suffix of a character list starting at its last dot, when it has one. -/
def lastDotSuffix : List Char → Option (List Char)
  | [] => none
  | c :: cs =>
    match lastDotSuffix cs with
    | some suf => some suf
    | none => if c = Char.ofNat 46 then some (c :: cs) else none

/-- Model of node path.extname: the suffix of the name from its last dot,
empty when the name has no dot. -/
def extname (s : String) : String :=
  match lastDotSuffix s.data with
  | some l => String.mk l
  | none => ""

/-- Model of the JS replace call with a one-character pattern and an empty
replacement: removes the first occurrence of the character. -/
def removeFirst (c : Char) : List Char → List Char
  | [] => []
  | x :: xs => if x = c then xs else x :: removeFirst c xs

/-- The upload request: the incoming multer file (originalname, mimetype,
buffer size) together with the fields of FileUploadDto the claims touch. -/
structure UploadReq where
  originalname : String
  mimetype : String
  bufSize : Nat
  folderId : Option Nat
  storageType : Option StorageType
  filename : Option String
  uploadedBy : Option String
deriving DecidableEq, Repr

/-- FileService.uploadFile (file.service.ts lines 158-217).  The try block
validates the folder when given, resolves the strategy for the requested
storage type defaulting to LOCAL, derives the stored filename (the
caller-supplied one, or the generated uuid freshName plus the original
extension), performs the backend upload, inserts the file row referencing
the upload result, and recomputes the folder stats; the catch block rethrows
any error as a storage-operation upload exception.  writeErr models a
backend write failure; newId models the generated row id. -/
def FileService.uploadFile (cfg : Config) (writeErr : Option String)
    (freshName : String) (newId : Nat) (s : SysState) (req : UploadReq) :
    OpOut FileRec :=
  let folderOk : Except Err Unit :=
    match req.folderId with
    | some fid =>
      if (findFolder s.db fid).isSome then .ok () else .error (.folderNotFound fid)
    | none => .ok ()
  match folderOk with
  | .error e => ⟨s, .error (.storageOperation "upload" e.message), []⟩
  | .ok _ =>
    let storageType := req.storageType.getD StorageType.LOCAL
    match StorageFactory.getStrategy cfg.registered storageType with
    | .error e => ⟨s, .error (.storageOperation "upload" e), []⟩
    | .ok _ =>
      let ext := extname req.originalname
      let filename := req.filename.getD (freshName ++ ext)
      match LocalStorageStrategy.upload cfg.uploadPath cfg.baseUrl writeErr
          s.storage req.bufSize req.mimetype filename with
      | .error e =>
        ⟨s, .error (.storageOperation "upload" e), [.backendWrite filename]⟩
      | .ok (st2, ur) =>
        let fileEntity : FileRec :=
          { id := newId, name := filename, originalName := req.originalname,
            path := ur.path, url := ur.url, size := ur.size,
            mimetype := ur.mimetype,
            extension := String.mk (removeFirst (Char.ofNat 46) ext.data),
            storageType := storageType, storageBucket := ur.bucket,
            storageKey := ur.key, folderId := req.folderId,
            uploadedBy := req.uploadedBy, deletedAt := none, deletedBy := none }
        let db2 : DB := ⟨s.db.files ++ [fileEntity], s.db.folders⟩
        let db3 := match req.folderId with
          | some fid => updateFolderStats db2 fid
          | none => db2
        ⟨⟨db3, st2⟩, .ok fileEntity, [.backendWrite filename, .rowInsert newId]⟩

/-- FileService.softDelete (file.service.ts lines 375-389): finds the
non-deleted row (findById without includeDeleted), throws already-deleted if
its deletion timestamp is set, assigns deletedBy on the in-memory entity
when supplied, and calls repository softDelete id, which sets only the
deletedAt column; the mutated entity is returned but never saved. -/
def FileService.softDelete (now : Nat) (db : DB) (id : Nat)
    (deletedBy : Option String) : DB × Except Err FileRec :=
  match findFile db id with
  | none => (db, .error (.fileNotFound id))
  | some file =>
    if file.deletedAt.isSome then
      (db, .error (.fileAlreadyDeleted id))
    else
      let returned := match deletedBy with
        | some d => { file with deletedBy := some d }
        | none => file
      let db2 : DB :=
        ⟨db.files.map (fun f =>
            if f.id == id then { f with deletedAt := some now } else f),
         db.folders⟩
      (db2, .ok returned)

/-- FileService.restore (file.service.ts lines 427-446): finds the row
including deleted ones; a row that is not soft-deleted is returned as is;
otherwise repository restore clears the deletedAt column. -/
def FileService.restore (db : DB) (id : Nat) : DB × Except Err Unit :=
  match findFileWithDeleted db id with
  | none => (db, .error (.fileNotFound id))
  | some file =>
    if file.deletedAt.isNone then (db, .ok ())
    else
      (⟨db.files.map (fun f =>
          if f.id == id then { f with deletedAt := none } else f),
        db.folders⟩, .ok ())

/-- FileService.hardDelete (file.service.ts lines 394-422): finds the row
including deleted ones, resolves the strategy for its storage type, calls
the strategy delete with storageKey falling back to path (the returned
result object is not inspected), removes the row, and recomputes the folder
stats when the file belonged to a folder.  The catch block would rethrow a
thrown error as a storage-operation exception, and only strategy resolution
can throw here, since the strategy delete returns a result instead of
throwing. -/
def FileService.hardDelete (cfg : Config) (s : SysState) (id : Nat) :
    OpOut Unit :=
  match findFileWithDeleted s.db id with
  | none => ⟨s, .error (.fileNotFound id), []⟩
  | some file =>
    match StorageFactory.getStrategy cfg.registered file.storageType with
    | .error e => ⟨s, .error (.storageOperation "hard delete" e), []⟩
    | .ok _ =>
      let target := file.storageKey.getD file.path
      let (st2, delRes) := LocalStorageStrategy.delete cfg.uploadPath s.storage target
      let db2 : DB := ⟨s.db.files.filter (fun f => f.id ≠ file.id), s.db.folders⟩
      let db3 := match file.folderId with
        | some fid => updateFolderStats db2 fid
        | none => db2
      ⟨⟨db3, st2⟩, .ok (),
        [.backendDelete target delRes.success, .fileRowRemove file.id]⟩

/-- Folder rows visible under the default repository scope. -/
def liveFolders (db : DB) : List FolderRec :=
  db.folders.filter (fun f => f.deletedAt.isNone)

/-- One round of the descendant closure: add every non-listed folder whose
parent is already listed. -/
def descendantStep (folders : List FolderRec) (acc : List Nat) : List Nat :=
  acc ++ ((folders.filter (fun f =>
      match f.parentId with
      | some p => acc.contains p && !(acc.contains f.id)
      | none => false)).map (fun f => f.id))

/-- Iterate the closure step a fixed number of rounds. -/
def iterSteps (folders : List FolderRec) : Nat → List Nat → List Nat
  | 0, acc => acc
  | n + 1, acc => iterSteps folders n (descendantStep folders acc)

/-- Model of TreeRepository.findDescendants on the closure table, as used by
FolderService.getAllDescendants: the ids of the folder itself and of every
folder reachable downward through parent pointers of non-deleted rows,
computed as a bounded fixed-point iteration (the closure table holds the
reflexive self-pair, so the set includes the folder itself). -/
def descendantIds (db : DB) (id : Nat) : List Nat :=
  iterSteps (liveFolders db) db.folders.length [id]

/-- Model of TreeRepository.findAncestors as used by updateFolderPath: the
chain from the folder itself up to the root, self first. -/
def ancestorsOf (db : DB) : Nat → Nat → List FolderRec
  | 0, _ => []
  | fuel + 1, id =>
    match findFolder db id with
    | none => []
    | some f =>
      f :: (match f.parentId with
            | some p => ancestorsOf db fuel p
            | none => [])

/-- Write the materialized path of one folder row. -/
def setFolderPath (db : DB) (id : Nat) (p : String) : DB :=
  ⟨db.files,
   db.folders.map (fun f => if f.id == id then { f with path := p } else f)⟩

/-- FolderService.updateFolderPath (folder.service.ts lines 284-301):
rebuilds the materialized path of the folder from its reversed ancestor
names and recursively does the same for every descendant.  The recursion of
the source is bounded by the tree height on its acyclic trees; the model
carries fuel and leaves the state unchanged when it runs out. -/
def updateFolderPath : Nat → DB → Nat → DB
  | 0, db, _ => db
  | fuel + 1, db, id =>
    let anc := ancestorsOf db db.folders.length id
    let pathStr := "/" ++ String.intercalate "/" (anc.reverse.map (fun f => f.name))
    let db1 := setFolderPath db id pathStr
    let ds := descendantIds db1 id
    (ds.filter (fun d => d ≠ id)).foldl (fun acc d => updateFolderPath fuel acc d) db1

/-- FolderService.move (folder.service.ts lines 136-162): finds the folder
(default scope), validates the target parent when given and throws a cycle
error when the target parent lies in the descendant set of the folder;
otherwise re-parents the folder and recomputes the paths of the folder and
all its descendants. -/
def FolderService.move (db : DB) (id : Nat) (targetParentId : Option Nat) :
    DB × Except Err FolderRec :=
  match findFolder db id with
  | none => (db, .error (.folderNotFound id))
  | some folder =>
    let check : Except Err Unit :=
      match targetParentId with
      | none => .ok ()
      | some tp =>
        match findFolder db tp with
        | none => .error (.folderNotFound tp)
        | some _ =>
          if (descendantIds db id).contains tp then .error .cycleError
          else .ok ()
    match check with
    | .error e => (db, .error e)
    | .ok _ =>
      let db2 : DB :=
        ⟨db.files,
         db.folders.map (fun f =>
           if f.id == id then { f with parentId := targetParentId } else f)⟩
      let db3 := updateFolderPath (db2.folders.length + 1) db2 id
      (db3, .ok { folder with parentId := targetParentId })

/-- FolderService.softDelete (folder.service.ts lines 167-182): finds the
folder (default scope), assigns deletedBy on the in-memory entity (never
saved), calls repository softDelete id (sets only the deletedAt column of
the folder row), then soft-deletes every file with this folderId in one
batch update setting their deletedAt column. -/
def FolderService.softDelete (now : Nat) (db : DB) (id : Nat)
    (deletedBy : Option String) : DB × Except Err FolderRec :=
  match findFolder db id with
  | none => (db, .error (.folderNotFound id))
  | some folder =>
    let returned := { folder with deletedBy := deletedBy }
    let db2 : DB :=
      ⟨db.files.map (fun f =>
          if f.folderId == some id then { f with deletedAt := some now } else f),
       db.folders.map (fun f =>
          if f.id == id then { f with deletedAt := some now } else f)⟩
    (db2, .ok returned)

/-- FolderService.getFolderWithStats (folder.service.ts lines 263-279):
finds the folder (default scope) and runs the live count and sum query over
non-deleted files with this folderId, returning the folder together with
the freshly computed pair rather than the cached columns. -/
def FolderService.getFolderWithStats (db : DB) (id : Nat) :
    Except Err (FolderRec × Nat × Nat) :=
  match findFolder db id with
  | none => .error (.folderNotFound id)
  | some folder =>
    .ok (folder, (liveFilesIn db id).length,
      ((liveFilesIn db id).map (fun f => f.size)).sum)

/-- Remove the folder row (folderRepository.remove). -/
def removeFolderRow (db : DB) (id : Nat) : DB :=
  ⟨db.files, db.folders.filter (fun f => f.id ≠ id)⟩

/-- Remove every file row of the folder (fileRepository.delete where
folderId). -/
def removeFilesOfFolder (db : DB) (id : Nat) : DB :=
  ⟨db.files.filter (fun f => !(f.folderId == some id)), db.folders⟩

/-- One step of the forced child-deletion loop of FolderService.hardDelete:
an error thrown by an earlier child deletion aborts the loop (the
accumulated outcome passes through), otherwise the recursive deletion rec
runs on the current state and its events are appended. -/
def hardDeleteStep (rec : SysState → Nat → OpOut Unit) (acc : OpOut Unit)
    (cid : Nat) : OpOut Unit :=
  match acc.result with
  | .error _ => acc
  | .ok _ =>
    let out := rec acc.state cid
    ⟨out.state, out.result, acc.trace ++ out.trace⟩

/-- Body of one FolderService.hardDelete call with the recursive call on
child folders abstracted as rec, for the documentation of the recursion see
FolderService.hardDelete below. -/
def FolderService.hardDeleteCore (rec : SysState → Nat → OpOut Unit)
    (s : SysState) (id : Nat) (force : Bool) : OpOut Unit :=
  match findFolderWithDeleted s.db id with
  | none => ⟨s, .error (.folderNotFound id), []⟩
  | some _ =>
    let fileCount := (s.db.files.filter (fun f => f.folderId == some id)).length
    if fileCount > 0 && !force then
      ⟨s, .error (.folderNotEmpty id), []⟩
    else
      let s1 : SysState × List Event :=
        if force && fileCount > 0 then
          (⟨removeFilesOfFolder s.db id, s.storage⟩, [Event.filesOfFolderRemove id])
        else (s, [])
      let children := s1.1.db.folders.filter (fun f => f.parentId == some id)
      if children.length > 0 && !force then
        ⟨s1.1, .error (.folderNotEmpty id), s1.2⟩
      else
        let after : OpOut Unit :=
          if force && children.length > 0 then
            (children.map (fun c => c.id)).foldl (hardDeleteStep rec)
              ⟨s1.1, .ok (), s1.2⟩
          else ⟨s1.1, .ok (), s1.2⟩
        match after.result with
        | .error e => ⟨after.state, .error e, after.trace⟩
        | .ok _ =>
          ⟨⟨removeFolderRow after.state.db id, after.state.storage⟩,
           .ok (), after.trace ++ [Event.folderRowRemove id]⟩

/-- FolderService.hardDelete (folder.service.ts lines 187-231): finds the
folder including deleted ones; counts the files of the folder including
soft-deleted ones and throws folder-not-empty when the count is positive
without force; with force removes those file rows from the database (the
storage strategies are never invoked); then lists child folders including
deleted ones, throws folder-not-empty when children exist without force,
with force recursively hard-deletes each child (an error thrown by a
recursive call aborts the loop and propagates), and finally removes the
folder row.  The source recursion is bounded by the tree height on its
acyclic trees; the model carries fuel. -/
def FolderService.hardDelete : Nat → SysState → Nat → Bool → OpOut Unit
  | 0, s, _, _ => ⟨s, .error .fuelExhausted, []⟩
  | fuel + 1, s, id, force =>
    FolderService.hardDeleteCore
      (fun s2 c => FolderService.hardDelete fuel s2 c true) s id force

/-- Whether an operation result is a normal return rather than a thrown
exception. -/
def isOk {α : Type} : Except Err α → Bool
  | .ok _ => true
  | .error _ => false

/-- A path filtered out of a list is no longer contained in it. -/
theorem contains_filter_ne_self (l : List String) (x : String) :
    (l.filter (fun p => p ≠ x)).contains x = false := by
  simp

/-- C6 counterexample: the object-store backend delete of a key that refers
to no existing object returns success true, not success false, because the
S3 DeleteObject call succeeds on a missing key; the claim fails for this
backend. -/
theorem c6_counterexample :
    (S3State.mk []).objects.contains "missing.txt" = false ∧
    (AWSS3Strategy.delete none ⟨[]⟩ "missing.txt").2 =
      ⟨true, some "File deleted successfully"⟩ := by
  exact ⟨rfl, rfl⟩

/-- C6 amended: the local backend delete of a non-existent path returns
success false with the message File not found and never throws, and a
second delete of the same path always returns success false; the
object-store backend delete also never throws, but it returns success false
exactly when the underlying client call throws, so deleting a missing key
against a working store returns success true. -/
theorem c6_claim :
    (∀ (up : String) (s : LocalState) (p : String),
      s.fs.contains (joinPath up p) = false →
        LocalStorageStrategy.delete up s p = (s, ⟨false, some "File not found"⟩)) ∧
    (∀ (up : String) (s : LocalState) (p : String),
      (LocalStorageStrategy.delete up
        (LocalStorageStrategy.delete up s p).1 p).2.success = false) ∧
    (∀ (net : Option String) (s : S3State) (k : String),
      (AWSS3Strategy.delete net s k).2.success = net.isNone) := by
  refine ⟨?_, ?_, ?_⟩
  · intro up s p h
    simp at h
    simp [LocalStorageStrategy.delete, h]
  · intro up s p
    by_cases h : joinPath up p ∈ s.fs
    · simp [LocalStorageStrategy.delete, h]
    · simp [LocalStorageStrategy.delete, h]
  · intro net s k
    cases net <;> rfl

/-- C6 witness: the amended theorem applied to a concrete missing path and
a concrete failing client call. -/
theorem c6_witness :
    LocalStorageStrategy.delete "up" ⟨[]⟩ "a.txt" =
      (⟨[]⟩, ⟨false, some "File not found"⟩) ∧
    (AWSS3Strategy.delete (some "network down") ⟨["k"]⟩ "k").2.success =
      (some "network down").isNone := by
  exact ⟨c6_claim.1 "up" ⟨[]⟩ "a.txt" (by decide),
    c6_claim.2.2 (some "network down") ⟨["k"]⟩ "k"⟩

/-- C10: the object-store batch delete returns one result per input key;
when the single client call does not throw every entry is success true
regardless of any per-key errors carried by the batch response, and when it
throws every entry is success false carrying the thrown message, so the
per-key outcomes are always uniform. -/
theorem c10_claim :
    ∀ (net : Option String) (pk : List (String × String)) (s : S3State)
      (keys : List String),
      ((AWSS3Strategy.deleteMultiple net pk s keys).2.length = keys.length) ∧
      (net = none → ∀ r ∈ (AWSS3Strategy.deleteMultiple net pk s keys).2,
        r = ⟨true, some "File deleted successfully"⟩) ∧
      (∀ e, net = some e → ∀ r ∈ (AWSS3Strategy.deleteMultiple net pk s keys).2,
        r = ⟨false, some e⟩) ∧
      (∀ r1 ∈ (AWSS3Strategy.deleteMultiple net pk s keys).2,
       ∀ r2 ∈ (AWSS3Strategy.deleteMultiple net pk s keys).2, r1 = r2) := by
  intro net pk s keys
  cases net with
  | none =>
    refine ⟨by simp [AWSS3Strategy.deleteMultiple, s3SendDeleteObjects], ?_, ?_, ?_⟩
    · intro _ r hr
      simp [AWSS3Strategy.deleteMultiple, s3SendDeleteObjects] at hr
      obtain ⟨_, _, rfl⟩ := hr
      rfl
    · intro e he
      exact absurd he (by simp)
    · intro r1 h1 r2 h2
      simp [AWSS3Strategy.deleteMultiple, s3SendDeleteObjects] at h1 h2
      obtain ⟨_, _, rfl⟩ := h1
      obtain ⟨_, _, rfl⟩ := h2
      rfl
  | some e0 =>
    refine ⟨by simp [AWSS3Strategy.deleteMultiple, s3SendDeleteObjects], ?_, ?_, ?_⟩
    · intro he
      exact absurd he (by simp)
    · intro e he r hr
      cases he
      simp [AWSS3Strategy.deleteMultiple, s3SendDeleteObjects] at hr
      obtain ⟨_, _, rfl⟩ := hr
      rfl
    · intro r1 h1 r2 h2
      simp [AWSS3Strategy.deleteMultiple, s3SendDeleteObjects] at h1 h2
      obtain ⟨_, _, rfl⟩ := h1
      obtain ⟨_, _, rfl⟩ := h2
      rfl

/-- C10 witness: the theorem applied to a concrete two-key batch, once with
a working client call and once with a throwing one. -/
theorem c10_witness :
    ((AWSS3Strategy.deleteMultiple none [] ⟨["a"]⟩ ["a", "b"]).2.length = 2) ∧
    (∀ r ∈ (AWSS3Strategy.deleteMultiple none [] ⟨["a"]⟩ ["a", "b"]).2,
      r = ⟨true, some "File deleted successfully"⟩) ∧
    (∀ r ∈ (AWSS3Strategy.deleteMultiple (some "boom") [] ⟨["a"]⟩ ["a", "b"]).2,
      r = ⟨false, some "boom"⟩) := by
  exact ⟨(c10_claim none [] ⟨["a"]⟩ ["a", "b"]).1,
    (c10_claim none [] ⟨["a"]⟩ ["a", "b"]).2.1 rfl,
    (c10_claim (some "boom") [] ⟨["a"]⟩ ["a", "b"]).2.2.1 "boom" rfl⟩

/-- Sample file row builder for concrete test states. -/
def mkFile (id : Nat) (size : Nat) (folderId : Option Nat)
    (deletedAt : Option Nat) (deletedBy : Option String) : FileRec :=
  { id := id, name := "f", originalName := "f.txt", path := "f", url := none,
    size := size, mimetype := "text/plain", extension := "txt",
    storageType := .LOCAL, storageBucket := none, storageKey := none,
    folderId := folderId, uploadedBy := none, deletedAt := deletedAt,
    deletedBy := deletedBy }

/-- Sample folder row builder for concrete test states. -/
def mkFolder (id : Nat) (parentId : Option Nat) (fileCount totalSize : Nat)
    (deletedAt : Option Nat) : FolderRec :=
  { id := id, name := "d", path := "/d", parentId := parentId, isPublic := true,
    fileCount := fileCount, totalSize := totalSize, createdBy := none,
    deletedAt := deletedAt, deletedBy := some "alice" }

/-- C7 counterexample: with only the AWS_S3 backend registered, an upload
request that specifies no backend kind fails with a strategy-not-found
error even though the registry is non-empty and getDefaultStrategy would
return the first-registered backend, so uploadFile does not resolve through
the registry default. -/
theorem c7_counterexample :
    (([StorageType.AWS_S3] : List StorageType) ≠ []) ∧
    StorageFactory.getDefaultStrategy [StorageType.AWS_S3] =
      .ok StorageType.AWS_S3 ∧
    (FileService.uploadFile ⟨"up", "", [StorageType.AWS_S3]⟩ none "f" 1
      ⟨⟨[], []⟩, ⟨[]⟩⟩ ⟨"a.txt", "text/plain", 3, none, none, none, none⟩).result =
      .error (.storageOperation "upload" "Storage strategy not found for type") := by
  exact ⟨by decide, rfl, rfl⟩

/-- C7 amended: when the upload request specifies no backend kind,
uploadFile resolves the fixed kind StorageType.LOCAL, not the registry
default: any successful upload without an explicit kind stores with the
LOCAL backend, and when LOCAL is not registered the upload fails even if
other backends are registered.  getDefaultStrategy does return the
first-registered backend and fails only when the registry is empty, but
uploadFile never consults it. -/
theorem c7_claim :
    (∀ (cfg : Config) (writeErr : Option String) (freshName : String)
        (newId : Nat) (s : SysState) (req : UploadReq) (r : FileRec),
      req.storageType = none →
      (FileService.uploadFile cfg writeErr freshName newId s req).result = .ok r →
        r.storageType = StorageType.LOCAL) ∧
    (∀ (cfg : Config) (writeErr : Option String) (freshName : String)
        (newId : Nat) (s : SysState) (req : UploadReq),
      req.storageType = none → req.folderId = none →
      StorageType.LOCAL ∉ cfg.registered →
        (FileService.uploadFile cfg writeErr freshName newId s req).result =
          .error (.storageOperation "upload" "Storage strategy not found for type")) ∧
    (∀ (reg : List StorageType) (t : StorageType),
      StorageFactory.getDefaultStrategy reg = .ok t → reg.head? = some t) ∧
    (StorageFactory.getDefaultStrategy [] = .error "No storage strategies available") := by
  refine ⟨?_, ?_, ?_, rfl⟩
  · intro cfg writeErr freshName newId s req r hst hok
    simp only [FileService.uploadFile, hst, Option.getD_none] at hok
    split at hok
    · simp at hok
    · split at hok
      · simp at hok
      · split at hok
        · simp at hok
        · simp only [Except.ok.injEq] at hok
          subst hok
          rfl
  · intro cfg writeErr freshName newId s req hst hf hreg
    simp [FileService.uploadFile, hst, hf, StorageFactory.getStrategy, hreg]
  · intro reg t h
    cases reg with
    | nil => simp [StorageFactory.getDefaultStrategy] at h
    | cons a l =>
      simp [StorageFactory.getDefaultStrategy] at h
      simp [h]

/-- C7 witness: the amended theorem applied to a concrete successful
LOCAL upload, a concrete registry without LOCAL, and a concrete
one-element registry. -/
theorem c7_witness :
    ({ id := 1, name := "n.txt", originalName := "a.txt", path := "up/n.txt",
       url := some "", size := 3, mimetype := "text/plain", extension := "txt",
       storageType := .LOCAL, storageBucket := none, storageKey := none,
       folderId := none, uploadedBy := none, deletedAt := none,
       deletedBy := none } : FileRec).storageType = StorageType.LOCAL ∧
    (FileService.uploadFile ⟨"up", "", [StorageType.AWS_S3]⟩ none "f" 1
      ⟨⟨[], []⟩, ⟨[]⟩⟩ ⟨"a.txt", "text/plain", 3, none, none, none, none⟩).result =
      .error (.storageOperation "upload" "Storage strategy not found for type") ∧
    ([StorageType.DIGITAL_OCEAN, StorageType.LOCAL] : List StorageType).head? =
      some StorageType.DIGITAL_OCEAN := by
  refine ⟨?_, ?_, ?_⟩
  · exact c7_claim.1 ⟨"up", "", [StorageType.LOCAL]⟩ none "f" 1 ⟨⟨[], []⟩, ⟨[]⟩⟩
      ⟨"a.txt", "text/plain", 3, none, none, some "n.txt", none⟩ _ rfl (by decide)
  · exact c7_claim.2.1 ⟨"up", "", [StorageType.AWS_S3]⟩ none "f" 1
      ⟨⟨[], []⟩, ⟨[]⟩⟩ ⟨"a.txt", "text/plain", 3, none, none, none, none⟩
      rfl rfl (by decide)
  · exact c7_claim.2.2.1 [StorageType.DIGITAL_OCEAN, StorageType.LOCAL]
      StorageType.DIGITAL_OCEAN rfl

/-- A successful default-scope file lookup returns a row with the requested
id and no deletion timestamp. -/
theorem findFile_some {db : DB} {id : Nat} {f : FileRec}
    (h : findFile db id = some f) : f.id = id ∧ f.deletedAt = none := by
  have hp := List.find?_some h
  simpa using hp

/-- A successful default-scope folder lookup returns a row with the
requested id and no deletion timestamp. -/
theorem findFolder_some {db : DB} {id : Nat} {f : FolderRec}
    (h : findFolder db id = some f) : f.id = id ∧ f.deletedAt = none := by
  have hp := List.find?_some h
  simpa using hp

/-- A successful any-scope file lookup returns a row with the requested id. -/
theorem findFileWithDeleted_some {db : DB} {id : Nat} {f : FileRec}
    (h : findFileWithDeleted db id = some f) : f.id = id := by
  have hp := List.find?_some h
  simpa using hp

/-- Setting the deletion timestamp of the rows matching an id leaves every
deletedBy field unchanged. -/
theorem files_map_deletedBy_set (files : List FileRec) (id now : Nat) :
    (files.map (fun f =>
        if f.id == id then { f with deletedAt := some now } else f)).map
      (fun f => f.deletedBy) = files.map (fun f => f.deletedBy) := by
  induction files with
  | nil => rfl
  | cons a l ih =>
    simp only [List.map_cons, ih]
    by_cases h : a.id = id <;> simp [h]

/-- Setting the deletion timestamp of the files of a folder leaves every
deletedBy field unchanged. -/
theorem files_map_deletedBy_cascade (files : List FileRec) (id now : Nat) :
    (files.map (fun f =>
        if f.folderId == some id then { f with deletedAt := some now } else f)).map
      (fun f => f.deletedBy) = files.map (fun f => f.deletedBy) := by
  induction files with
  | nil => rfl
  | cons a l ih =>
    simp only [List.map_cons, ih]
    by_cases h : a.folderId = some id <;> simp [h]

/-- Setting the deletion timestamp of the folder rows matching an id leaves
every deletedBy field unchanged. -/
theorem folders_map_deletedBy_set (folders : List FolderRec) (id now : Nat) :
    (folders.map (fun f =>
        if f.id == id then { f with deletedAt := some now } else f)).map
      (fun f => f.deletedBy) = folders.map (fun f => f.deletedBy) := by
  induction folders with
  | nil => rfl
  | cons a l ih =>
    simp only [List.map_cons, ih]
    by_cases h : a.id = id <;> simp [h]

/-- After setting the deletion timestamp of the file rows matching an id,
every row with that id carries the timestamp. -/
theorem files_set_deletedAt_mem (files : List FileRec) (id now : Nat) :
    ∀ f ∈ files.map (fun f =>
        if f.id == id then { f with deletedAt := some now } else f),
      f.id = id → f.deletedAt = some now := by
  intro f hf hid
  simp only [List.mem_map] at hf
  obtain ⟨a, _, rfl⟩ := hf
  by_cases h : a.id = id
  · simp [h]
  · rw [if_neg (by simpa using h)] at hid ⊢
    exact absurd hid h

/-- After setting the deletion timestamp of the folder rows matching an id,
every row with that id carries the timestamp. -/
theorem folders_set_deletedAt_mem (folders : List FolderRec) (id now : Nat) :
    ∀ f ∈ folders.map (fun f =>
        if f.id == id then { f with deletedAt := some now } else f),
      f.id = id → f.deletedAt = some now := by
  intro f hf hid
  simp only [List.mem_map] at hf
  obtain ⟨a, _, rfl⟩ := hf
  by_cases h : a.id = id
  · simp [h]
  · rw [if_neg (by simpa using h)] at hid ⊢
    exact absurd hid h

/-- C9: when a deleter identity is supplied, both soft-delete operations
leave the persisted deletedBy column of every row unchanged and set only
the deletion timestamp: the identity is assigned to an in-memory entity
that is never saved. -/
theorem c9_claim :
    (∀ (now : Nat) (db : DB) (id : Nat) (actor : String),
      isOk (FileService.softDelete now db id (some actor)).2 = true →
        ((FileService.softDelete now db id (some actor)).1).files.map
            (fun f => f.deletedBy) = db.files.map (fun f => f.deletedBy) ∧
        ((FileService.softDelete now db id (some actor)).1).folders = db.folders ∧
        (∀ f ∈ ((FileService.softDelete now db id (some actor)).1).files,
          f.id = id → f.deletedAt = some now)) ∧
    (∀ (now : Nat) (db : DB) (id : Nat) (actor : String),
      isOk (FolderService.softDelete now db id (some actor)).2 = true →
        ((FolderService.softDelete now db id (some actor)).1).folders.map
            (fun f => f.deletedBy) = db.folders.map (fun f => f.deletedBy) ∧
        ((FolderService.softDelete now db id (some actor)).1).files.map
            (fun f => f.deletedBy) = db.files.map (fun f => f.deletedBy) ∧
        (∀ f ∈ ((FolderService.softDelete now db id (some actor)).1).folders,
          f.id = id → f.deletedAt = some now)) := by
  constructor
  · intro now db id actor hok
    rcases hfind : findFile db id with _ | file
    · simp [FileService.softDelete, hfind, isOk] at hok
    · have hdel := (findFile_some hfind).2
      simp only [FileService.softDelete, hfind, hdel, Option.isSome_none,
        Bool.false_eq_true, if_false]
      refine ⟨files_map_deletedBy_set db.files id now, trivial,
        files_set_deletedAt_mem db.files id now⟩
  · intro now db id actor hok
    rcases hfind : findFolder db id with _ | folder
    · simp [FolderService.softDelete, hfind, isOk] at hok
    · simp only [FolderService.softDelete, hfind]
      exact ⟨folders_map_deletedBy_set db.folders id now,
        files_map_deletedBy_cascade db.files id now,
        folders_set_deletedAt_mem db.folders id now⟩

/-- C9 witness: the theorem applied to a concrete store holding one file
and one folder whose rows carry a previous deleter identity. -/
theorem c9_witness :
    ((FileService.softDelete 5
        ⟨[mkFile 1 100 (some 10) none (some "alice")],
         [mkFolder 10 none 1 100 none]⟩ 1 (some "bob")).1).files.map
      (fun f => f.deletedBy) =
      ([mkFile 1 100 (some 10) none (some "alice")].map (fun f => f.deletedBy)) ∧
    ((FolderService.softDelete 5
        ⟨[mkFile 1 100 (some 10) none (some "alice")],
         [mkFolder 10 none 1 100 none]⟩ 10 (some "bob")).1).folders.map
      (fun f => f.deletedBy) =
      ([mkFolder 10 none 1 100 none].map (fun f => f.deletedBy)) := by
  refine ⟨?_, ?_⟩
  · exact (c9_claim.1 5
      ⟨[mkFile 1 100 (some 10) none (some "alice")],
       [mkFolder 10 none 1 100 none]⟩ 1 "bob" (by decide)).1
  · exact (c9_claim.2 5
      ⟨[mkFile 1 100 (some 10) none (some "alice")],
       [mkFolder 10 none 1 100 none]⟩ 10 "bob" (by decide)).1

/-- Direct enumeration following the spec sentence for the stats claim: the
count and the sum of sizes of non-deleted files whose folderId equals the
folder id. -/
def specLiveStats (db : DB) (id : Nat) : Nat × Nat :=
  ((db.files.filter (fun f => f.folderId == some id && f.deletedAt.isNone)).length,
   ((db.files.filter (fun f => f.folderId == some id && f.deletedAt.isNone)).map
      (fun f => f.size)).sum)

/-- A successful getFolderWithStats returns exactly the direct enumeration. -/
theorem getFolderWithStats_live {db : DB} {id : Nat} {folder : FolderRec}
    {cnt tot : Nat}
    (h : FolderService.getFolderWithStats db id = .ok (folder, cnt, tot)) :
    (cnt, tot) = specLiveStats db id := by
  rcases hfind : findFolder db id with _ | f
  · simp [FolderService.getFolderWithStats, hfind] at h
  · simp only [FolderService.getFolderWithStats, hfind, Except.ok.injEq,
      Prod.mk.injEq] at h
    obtain ⟨-, hc, ht⟩ := h
    simp [specLiveStats, liveFilesIn, ← hc, ← ht]

/-- C8: getFolderWithStats returns exactly the count and sum of sizes
obtained by direct enumeration of non-deleted files with the given
folderId, whatever state the store is in, and the returned numbers do not
depend on the folder rows at all, hence not on the cached fileCount and
totalSize columns. -/
theorem c8_claim :
    (∀ (db : DB) (id : Nat) (folder : FolderRec) (cnt tot : Nat),
      FolderService.getFolderWithStats db id = .ok (folder, cnt, tot) →
        (cnt, tot) = specLiveStats db id) ∧
    (∀ (db db2 : DB) (id : Nat) (f1 f2 : FolderRec) (c1 t1 c2 t2 : Nat),
      db.files = db2.files →
      FolderService.getFolderWithStats db id = .ok (f1, c1, t1) →
      FolderService.getFolderWithStats db2 id = .ok (f2, c2, t2) →
        c1 = c2 ∧ t1 = t2) := by
  constructor
  · intro db id folder cnt tot h
    exact getFolderWithStats_live h
  · intro db db2 id f1 f2 c1 t1 c2 t2 hfiles h1 h2
    have e1 := getFolderWithStats_live h1
    have e2 := getFolderWithStats_live h2
    have : specLiveStats db id = specLiveStats db2 id := by
      simp [specLiveStats, hfiles]
    rw [this] at e1
    rw [← e2] at e1
    exact ⟨congrArg Prod.fst e1, congrArg Prod.snd e1⟩

/-- C8 witness: the theorem applied to a concrete store whose cached folder
aggregates disagree with the live enumeration, in two variants differing
only in the cached values. -/
theorem c8_witness :
    ((1 : Nat), (100 : Nat)) =
      specLiveStats
        ⟨[mkFile 1 100 (some 10) none none, mkFile 2 50 (some 10) (some 7) none,
          mkFile 3 30 (some 11) none none],
         [mkFolder 10 none 5 999 none, mkFolder 11 none 0 0 none]⟩ 10 ∧
    ((1 : Nat) = 1 ∧ (100 : Nat) = 100) := by
  constructor
  · exact c8_claim.1
      ⟨[mkFile 1 100 (some 10) none none, mkFile 2 50 (some 10) (some 7) none,
        mkFile 3 30 (some 11) none none],
       [mkFolder 10 none 5 999 none, mkFolder 11 none 0 0 none]⟩ 10
      (mkFolder 10 none 5 999 none) 1 100 (by decide)
  · exact c8_claim.2
      ⟨[mkFile 1 100 (some 10) none none], [mkFolder 10 none 5 999 none]⟩
      ⟨[mkFile 1 100 (some 10) none none], [mkFolder 10 none 0 0 none]⟩ 10
      (mkFolder 10 none 5 999 none) (mkFolder 10 none 0 0 none) 1 100 1 100
      rfl (by decide) (by decide)

/-- The cached-aggregate invariant of the spec for one folder: every folder
row with the given id carries exactly the live count and total size of the
non-deleted files of that folder. -/
def statsAccurate (db : DB) (fid : Nat) : Prop :=
  ∀ fol ∈ db.folders, fol.id = fid →
    fol.fileCount = (liveFilesIn db fid).length ∧
    fol.totalSize = ((liveFilesIn db fid).map (fun f => f.size)).sum

instance (db : DB) (fid : Nat) : Decidable (statsAccurate db fid) := by
  unfold statsAccurate
  infer_instance

/-- Recomputing the folder stats establishes the cached-aggregate invariant
for that folder. -/
theorem statsAccurate_update (db : DB) (fid : Nat) :
    statsAccurate (updateFolderStats db fid) fid := by
  intro fol hmem hid
  simp only [updateFolderStats, List.mem_map] at hmem
  obtain ⟨a, -, rfl⟩ := hmem
  by_cases h : a.id = fid
  · simp [h, liveFilesIn, updateFolderStats]
  · rw [if_neg (by simpa using h)] at hid
    exact absurd hid h

/-- Setting the deletion timestamp of folder rows matching an id leaves
every cached aggregate pair unchanged. -/
theorem folders_map_stats_set (folders : List FolderRec) (id now : Nat) :
    (folders.map (fun f =>
        if f.id == id then { f with deletedAt := some now } else f)).map
      (fun f => (f.fileCount, f.totalSize)) =
      folders.map (fun f => (f.fileCount, f.totalSize)) := by
  induction folders with
  | nil => rfl
  | cons a l ih =>
    simp only [List.map_cons, ih]
    by_cases h : a.id = id <;> simp [h]

/-- C2 counterexample: a store satisfying the cached-aggregate invariant on
which a file soft delete succeeds yet leaves the cached fileCount and
totalSize untouched, breaking the invariant: the deletion-state change is
not followed by a recomputation. -/
theorem c2_counterexample :
    statsAccurate ⟨[mkFile 1 100 (some 10) none none],
      [mkFolder 10 none 1 100 none]⟩ 10 ∧
    isOk (FileService.softDelete 99
      ⟨[mkFile 1 100 (some 10) none none],
       [mkFolder 10 none 1 100 none]⟩ 1 none).2 = true ∧
    ¬ statsAccurate (FileService.softDelete 99
      ⟨[mkFile 1 100 (some 10) none none],
       [mkFolder 10 none 1 100 none]⟩ 1 none).1 10 := by
  refine ⟨by decide, by decide, by decide⟩

/-- C2 amended: the cached aggregates are recomputed for the target folder
by a successful upload and by a successful file hard delete, but a file
soft delete, a file restore, and a folder soft delete (with its cascade to
contained files) leave every folder row's cached fileCount and totalSize
untouched, so the invariant does not survive operations that only change
deletion state. -/
theorem c2_claim :
    (∀ (db : DB) (fid : Nat), statsAccurate (updateFolderStats db fid) fid) ∧
    (∀ (cfg : Config) (writeErr : Option String) (freshName : String)
        (newId : Nat) (s : SysState) (req : UploadReq) (fid : Nat),
      req.folderId = some fid →
      isOk (FileService.uploadFile cfg writeErr freshName newId s req).result = true →
        statsAccurate
          (FileService.uploadFile cfg writeErr freshName newId s req).state.db fid) ∧
    (∀ (cfg : Config) (s : SysState) (id fid : Nat) (file : FileRec),
      findFileWithDeleted s.db id = some file →
      file.folderId = some fid →
      isOk (FileService.hardDelete cfg s id).result = true →
        statsAccurate (FileService.hardDelete cfg s id).state.db fid) ∧
    (∀ (now : Nat) (db : DB) (id : Nat) (actor : Option String),
      ((FileService.softDelete now db id actor).1).folders = db.folders) ∧
    (∀ (db : DB) (id : Nat), ((FileService.restore db id).1).folders = db.folders) ∧
    (∀ (now : Nat) (db : DB) (id : Nat) (actor : Option String),
      ((FolderService.softDelete now db id actor).1).folders.map
          (fun f => (f.fileCount, f.totalSize)) =
        db.folders.map (fun f => (f.fileCount, f.totalSize))) := by
  refine ⟨statsAccurate_update, ?_, ?_, ?_, ?_, ?_⟩
  · intro cfg writeErr freshName newId s req fid hf hok
    simp only [FileService.uploadFile, hf] at hok ⊢
    rcases hfold : (findFolder s.db fid).isSome with _ | _
    · simp only [hfold, Bool.false_eq_true, if_false] at hok
      simp [isOk] at hok
    · simp only [hfold, if_true] at hok ⊢
      rcases hstrat : StorageFactory.getStrategy cfg.registered
          (req.storageType.getD StorageType.LOCAL) with e | t
      · simp [hstrat, isOk] at hok
      · simp only [hstrat] at hok ⊢
        cases writeErr with
        | some e => simp [LocalStorageStrategy.upload, isOk] at hok
        | none =>
          simp only [LocalStorageStrategy.upload] at hok ⊢
          exact statsAccurate_update _ _
  · intro cfg s id fid file hfind hfid hok
    simp only [FileService.hardDelete, hfind] at hok ⊢
    rcases hstrat : StorageFactory.getStrategy cfg.registered file.storageType
        with e | t
    · simp [hstrat, isOk] at hok
    · simp only [hstrat, hfid] at hok ⊢
      exact statsAccurate_update _ _
  · intro now db id actor
    rcases hfind : findFile db id with _ | file
    · simp [FileService.softDelete, hfind]
    · simp only [FileService.softDelete, hfind]
      by_cases h : file.deletedAt.isSome <;> simp [h]
  · intro db id
    rcases hfind : findFileWithDeleted db id with _ | file
    · simp [FileService.restore, hfind]
    · simp only [FileService.restore, hfind]
      by_cases h : file.deletedAt.isNone <;> simp [h]
  · intro now db id actor
    rcases hfind : findFolder db id with _ | folder
    · simp [FolderService.softDelete, hfind]
    · simp only [FolderService.softDelete, hfind]
      exact folders_map_stats_set db.folders id now

/-- C2 witness: the amended theorem applied at concrete inputs for the
recomputation, upload, hard delete, and soft delete conjuncts. -/
theorem c2_witness :
    statsAccurate (updateFolderStats
      ⟨[mkFile 1 100 (some 10) none none], [mkFolder 10 none 0 0 none]⟩ 10) 10 ∧
    statsAccurate
      (FileService.uploadFile ⟨"up", "", [StorageType.LOCAL]⟩ none "f" 2
        ⟨⟨[mkFile 1 100 (some 10) none none], [mkFolder 10 none 1 100 none]⟩, ⟨[]⟩⟩
        ⟨"b.txt", "text/plain", 40, some 10, none, some "b.txt", none⟩).state.db 10 ∧
    statsAccurate
      (FileService.hardDelete ⟨"up", "", [StorageType.LOCAL]⟩
        ⟨⟨[mkFile 1 100 (some 10) none none], [mkFolder 10 none 1 100 none]⟩, ⟨[]⟩⟩
        1).state.db 10 ∧
    ((FileService.softDelete 99
      ⟨[mkFile 1 100 (some 10) none none], [mkFolder 10 none 1 100 none]⟩
      1 none).1).folders = [mkFolder 10 none 1 100 none] := by
  refine ⟨c2_claim.1 _ 10, ?_, ?_, ?_⟩
  · exact c2_claim.2.1 ⟨"up", "", [StorageType.LOCAL]⟩ none "f" 2
      ⟨⟨[mkFile 1 100 (some 10) none none], [mkFolder 10 none 1 100 none]⟩, ⟨[]⟩⟩
      ⟨"b.txt", "text/plain", 40, some 10, none, some "b.txt", none⟩ 10 rfl
      (by decide)
  · exact c2_claim.2.2.1 ⟨"up", "", [StorageType.LOCAL]⟩
      ⟨⟨[mkFile 1 100 (some 10) none none], [mkFolder 10 none 1 100 none]⟩, ⟨[]⟩⟩
      1 10 (mkFile 1 100 (some 10) none none) (by decide) rfl (by decide)
  · exact c2_claim.2.2.2.1 99
      ⟨[mkFile 1 100 (some 10) none none], [mkFolder 10 none 1 100 none]⟩ 1 none

/-- C1 counterexample: a record whose stored object is absent, so the
backend delete fails (the trace records a backend delete with success
false), yet hardDelete returns normally and the metadata row is removed
from the database. -/
theorem c1_counterexample :
    (FileService.hardDelete ⟨"up", "", [StorageType.LOCAL]⟩
      ⟨⟨[mkFile 1 100 none none none], []⟩, ⟨[]⟩⟩ 1).result = .ok () ∧
    (FileService.hardDelete ⟨"up", "", [StorageType.LOCAL]⟩
      ⟨⟨[mkFile 1 100 none none none], []⟩, ⟨[]⟩⟩ 1).trace =
      [.backendDelete "f" false, .fileRowRemove 1] ∧
    (FileService.hardDelete ⟨"up", "", [StorageType.LOCAL]⟩
      ⟨⟨[mkFile 1 100 none none none], []⟩, ⟨[]⟩⟩ 1).state.db.files = [] := by
  refine ⟨rfl, rfl, rfl⟩

/-- C1 amended: for every record found by hardDelete, the metadata row is
removed whenever the storage kind is registered, regardless of whether the
backend delete reports success or failure, because the strategy delete
returns a result object that hardDelete never inspects and never throws;
the row survives only when the record is missing or strategy resolution
itself throws (unregistered kind). -/
theorem c1_claim :
    ∀ (cfg : Config) (s : SysState) (id : Nat) (file : FileRec),
      findFileWithDeleted s.db id = some file →
        (cfg.registered.contains file.storageType = true →
          (FileService.hardDelete cfg s id).result = .ok () ∧
          ∀ f ∈ (FileService.hardDelete cfg s id).state.db.files, f.id ≠ id) ∧
        (cfg.registered.contains file.storageType = false →
          (FileService.hardDelete cfg s id).result =
            .error (.storageOperation "hard delete"
              "Storage strategy not found for type") ∧
          (FileService.hardDelete cfg s id).state = s) := by
  intro cfg s id file hfind
  have hid : file.id = id := findFileWithDeleted_some hfind
  constructor
  · intro hreg
    simp only [FileService.hardDelete, hfind, StorageFactory.getStrategy, hreg,
      if_true]
    constructor
    · cases hfid : file.folderId <;> simp [hfid]
    · intro f hf
      have hmem : f ∈ (s.db.files.filter (fun f => f.id ≠ file.id)) := by
        cases hfid : file.folderId with
        | none => simpa [hfid] using hf
        | some fid => simpa [hfid, updateFolderStats, liveFilesIn] using hf
      have := List.of_mem_filter hmem
      simp at this
      simpa [hid] using this
  · intro hreg
    have hreg' : file.storageType ∉ cfg.registered := by simpa using hreg
    simp [FileService.hardDelete, hfind, StorageFactory.getStrategy, hreg']

/-- C1 witness: the amended theorem applied to a concrete record with its
backend kind registered (row removed although the backend delete failed)
and to a concrete empty registry (row kept). -/
theorem c1_witness :
    ((FileService.hardDelete ⟨"up", "", [StorageType.LOCAL]⟩
        ⟨⟨[mkFile 1 100 none none none], []⟩, ⟨[]⟩⟩ 1).result = .ok () ∧
      ∀ f ∈ (FileService.hardDelete ⟨"up", "", [StorageType.LOCAL]⟩
        ⟨⟨[mkFile 1 100 none none none], []⟩, ⟨[]⟩⟩ 1).state.db.files,
        f.id ≠ 1) ∧
    ((FileService.hardDelete ⟨"up", "", []⟩
        ⟨⟨[mkFile 1 100 none none none], []⟩, ⟨[]⟩⟩ 1).result =
      .error (.storageOperation "hard delete"
        "Storage strategy not found for type") ∧
      (FileService.hardDelete ⟨"up", "", []⟩
        ⟨⟨[mkFile 1 100 none none none], []⟩, ⟨[]⟩⟩ 1).state =
        ⟨⟨[mkFile 1 100 none none none], []⟩, ⟨[]⟩⟩) := by
  constructor
  · exact (c1_claim ⟨"up", "", [StorageType.LOCAL]⟩
      ⟨⟨[mkFile 1 100 none none none], []⟩, ⟨[]⟩⟩ 1
      (mkFile 1 100 none none none) (by decide)).1 (by decide)
  · exact (c1_claim ⟨"up", "", []⟩
      ⟨⟨[mkFile 1 100 none none none], []⟩, ⟨[]⟩⟩ 1
      (mkFile 1 100 none none none) (by decide)).2 (by decide)

/-- Shape of every uploadFile outcome: a thrown error leaves the whole
state untouched, and a normal return implies the backend write succeeded
and the write event precedes the row insertion. -/
theorem uploadFile_shape (cfg : Config) (writeErr : Option String)
    (freshName : String) (newId : Nat) (s : SysState) (req : UploadReq) :
    (isOk (FileService.uploadFile cfg writeErr freshName newId s req).result = false →
      (FileService.uploadFile cfg writeErr freshName newId s req).state = s) ∧
    (isOk (FileService.uploadFile cfg writeErr freshName newId s req).result = true →
      writeErr = none ∧
      ∃ fn, (FileService.uploadFile cfg writeErr freshName newId s req).trace =
        [Event.backendWrite fn, Event.rowInsert newId]) := by
  rcases hf : req.folderId with _ | fid
  · simp only [FileService.uploadFile, hf]
    rcases hstrat : StorageFactory.getStrategy cfg.registered
        (req.storageType.getD StorageType.LOCAL) with e | t
    · simp [hstrat, isOk]
    · simp only [hstrat]
      cases writeErr with
      | some e => simp [LocalStorageStrategy.upload, isOk]
      | none =>
        simp only [LocalStorageStrategy.upload]
        refine ⟨fun h => by simp [isOk] at h, fun _ => ⟨by trivial, _, rfl⟩⟩
  · simp only [FileService.uploadFile, hf]
    rcases hfold : findFolder s.db fid with _ | fol
    · simp [hfold, isOk]
    · simp only [hfold, Option.isSome_some, if_true]
      rcases hstrat : StorageFactory.getStrategy cfg.registered
          (req.storageType.getD StorageType.LOCAL) with e | t
      · simp [hstrat, isOk]
      · simp only [hstrat]
        cases writeErr with
        | some e => simp [LocalStorageStrategy.upload, isOk]
        | none =>
          simp only [LocalStorageStrategy.upload]
          refine ⟨fun h => by simp [isOk] at h, fun _ => ⟨by trivial, _, rfl⟩⟩

/-- C4: an upload into a missing folder throws before any backend write is
attempted (empty event trace) and, like any failed upload, leaves the
database and storage untouched, so no file row is persisted; a successful
upload implies the backend write succeeded, and its write event precedes
the row insertion. -/
theorem c4_claim :
    ∀ (cfg : Config) (writeErr : Option String) (freshName : String)
      (newId : Nat) (s : SysState) (req : UploadReq),
      (∀ fid, req.folderId = some fid → findFolder s.db fid = none →
        (FileService.uploadFile cfg writeErr freshName newId s req).result =
          .error (.storageOperation "upload" (Err.message (.folderNotFound fid))) ∧
        (FileService.uploadFile cfg writeErr freshName newId s req).trace = []) ∧
      (isOk (FileService.uploadFile cfg writeErr freshName newId s req).result = false →
        (FileService.uploadFile cfg writeErr freshName newId s req).state = s) ∧
      (isOk (FileService.uploadFile cfg writeErr freshName newId s req).result = true →
        writeErr = none ∧
        ∃ fn, (FileService.uploadFile cfg writeErr freshName newId s req).trace =
          [Event.backendWrite fn, Event.rowInsert newId]) := by
  intro cfg writeErr freshName newId s req
  refine ⟨?_, (uploadFile_shape cfg writeErr freshName newId s req).1,
    (uploadFile_shape cfg writeErr freshName newId s req).2⟩
  intro fid hf hfold
  simp [FileService.uploadFile, hf, hfold, Err.message]

/-- C4 witness: the theorem applied to a concrete missing folder, a
concrete backend write failure, and a concrete successful upload. -/
theorem c4_witness :
    ((FileService.uploadFile ⟨"up", "", [StorageType.LOCAL]⟩ none "f" 1
        ⟨⟨[], []⟩, ⟨[]⟩⟩ ⟨"a.txt", "text/plain", 3, some 77, none, none, none⟩).result =
      .error (.storageOperation "upload" (Err.message (.folderNotFound 77))) ∧
     (FileService.uploadFile ⟨"up", "", [StorageType.LOCAL]⟩ none "f" 1
        ⟨⟨[], []⟩, ⟨[]⟩⟩ ⟨"a.txt", "text/plain", 3, some 77, none, none, none⟩).trace = []) ∧
    ((FileService.uploadFile ⟨"up", "", [StorageType.LOCAL]⟩ (some "disk full") "f" 1
        ⟨⟨[], []⟩, ⟨[]⟩⟩ ⟨"a.txt", "text/plain", 3, none, none, none, none⟩).state =
      ⟨⟨[], []⟩, ⟨[]⟩⟩) ∧
    ((none : Option String) = none ∧
     ∃ fn, (FileService.uploadFile ⟨"up", "", [StorageType.LOCAL]⟩ none "f" 1
        ⟨⟨[], []⟩, ⟨[]⟩⟩ ⟨"a.txt", "text/plain", 3, none, none, none, none⟩).trace =
          [Event.backendWrite fn, Event.rowInsert 1]) := by
  refine ⟨?_, ?_, ?_⟩
  · exact (c4_claim ⟨"up", "", [StorageType.LOCAL]⟩ none "f" 1
      ⟨⟨[], []⟩, ⟨[]⟩⟩ ⟨"a.txt", "text/plain", 3, some 77, none, none, none⟩).1
      77 rfl rfl
  · exact (c4_claim ⟨"up", "", [StorageType.LOCAL]⟩ (some "disk full") "f" 1
      ⟨⟨[], []⟩, ⟨[]⟩⟩ ⟨"a.txt", "text/plain", 3, none, none, none, none⟩).2.1
      (by decide)
  · exact (c4_claim ⟨"up", "", [StorageType.LOCAL]⟩ none "f" 1
      ⟨⟨[], []⟩, ⟨[]⟩⟩ ⟨"a.txt", "text/plain", 3, none, none, none, none⟩).2.2
      (by decide)

/-- Every member of the iterated closure comes from the seed or is the id
of one of the considered folder rows. -/
theorem mem_iterSteps (folders : List FolderRec) :
    ∀ (n : Nat) (acc : List Nat) (b : Nat), b ∈ iterSteps folders n acc →
      b ∈ acc ∨ ∃ f ∈ folders, f.id = b := by
  intro n
  induction n with
  | zero => intro acc b hb; exact .inl hb
  | succ n ih =>
    intro acc b hb
    rcases ih _ b hb with h | h
    · rcases List.mem_append.1 h with h1 | h2
      · exact .inl h1
      · right
        simp only [List.mem_map, List.mem_filter] at h2
        obtain ⟨f, ⟨hf, -⟩, rfl⟩ := h2
        exact ⟨f, hf, rfl⟩
    · exact .inr h

/-- Every member of the descendant set of a folder resolves under the
default scope, provided the folder itself does. -/
theorem descendant_findFolder {db : DB} {A : Nat} {fA : FolderRec}
    (hA : findFolder db A = some fA) :
    ∀ b ∈ descendantIds db A, (findFolder db b).isSome := by
  intro b hb
  rcases mem_iterSteps (liveFolders db) db.folders.length [A] b hb with h | h
  · simp only [List.mem_singleton] at h
    subst h
    simp [hA]
  · obtain ⟨f, hf, rfl⟩ := h
    simp only [liveFolders, List.mem_filter] at hf
    refine List.find?_isSome.2 ⟨f, hf.1, ?_⟩
    simp [hf.2]

/-- C5: moving a folder under one of its descendants, itself included,
throws the cycle error before any mutation, so the returned store is the
input store: all parent pointers and materialized paths are unchanged. -/
theorem c5_claim :
    ∀ (db : DB) (A B : Nat) (fA : FolderRec),
      findFolder db A = some fA →
      B ∈ descendantIds db A →
        FolderService.move db A (some B) = (db, .error .cycleError) := by
  intro db A B fA hA hB
  have hBsome := descendant_findFolder hA B hB
  rcases hfB : findFolder db B with _ | fB
  · rw [hfB] at hBsome
    simp at hBsome
  · have hcont : B ∈ descendantIds db A := hB
    simp [FolderService.move, hA, hfB, hcont]

/-- C5 witness: the theorem applied to a concrete two-folder tree, both for
the self-move and for the move into a child. -/
theorem c5_witness :
    FolderService.move
      ⟨[], [mkFolder 1 none 0 0 none, mkFolder 2 (some 1) 0 0 none]⟩
      1 (some 1) =
      (⟨[], [mkFolder 1 none 0 0 none, mkFolder 2 (some 1) 0 0 none]⟩,
        .error .cycleError) ∧
    FolderService.move
      ⟨[], [mkFolder 1 none 0 0 none, mkFolder 2 (some 1) 0 0 none]⟩
      1 (some 2) =
      (⟨[], [mkFolder 1 none 0 0 none, mkFolder 2 (some 1) 0 0 none]⟩,
        .error .cycleError) := by
  constructor
  · exact c5_claim ⟨[], [mkFolder 1 none 0 0 none, mkFolder 2 (some 1) 0 0 none]⟩
      1 1 (mkFolder 1 none 0 0 none) (by decide) (by decide)
  · exact c5_claim ⟨[], [mkFolder 1 none 0 0 none, mkFolder 2 (some 1) 0 0 none]⟩
      1 2 (mkFolder 1 none 0 0 none) (by decide) (by decide)

/-- The first state differs from the second only by removed table rows and
has the same physical storage. -/
def Shrinks (s2 s1 : SysState) : Prop :=
  s2.db.files.Sublist s1.db.files ∧
  s2.db.folders.Sublist s1.db.folders ∧
  s2.storage = s1.storage

theorem Shrinks.rfl (s : SysState) : Shrinks s s :=
  ⟨List.Sublist.refl _, List.Sublist.refl _, Eq.refl _⟩

theorem Shrinks.trans {s3 s2 s1 : SysState} (h32 : Shrinks s3 s2)
    (h21 : Shrinks s2 s1) : Shrinks s3 s1 :=
  ⟨h32.1.trans h21.1, h32.2.1.trans h21.2.1, h32.2.2.trans h21.2.2⟩

/-- An error accumulator passes through the whole child loop unchanged. -/
theorem foldl_step_error (rec : SysState → Nat → OpOut Unit) :
    ∀ (L : List Nat) (acc : OpOut Unit) (e : Err), acc.result = .error e →
      L.foldl (hardDeleteStep rec) acc = acc := by
  intro L
  induction L with
  | nil => intro acc e h; rfl
  | cons c rest ih =>
    intro acc e h
    have hstep : hardDeleteStep rec acc c = acc := by
      simp [hardDeleteStep, h]
    simp only [List.foldl_cons, hstep]
    exact ih acc e h

/-- A normally returning child loop started from a normal accumulator. -/
theorem foldl_step_acc_ok (rec : SysState → Nat → OpOut Unit)
    (L : List Nat) (acc : OpOut Unit)
    (h : isOk (L.foldl (hardDeleteStep rec) acc).result = true) :
    isOk acc.result = true := by
  rcases he : acc.result with e | v
  · rw [foldl_step_error rec L acc e he, he] at h
    simp [isOk] at h
  · simp [isOk]

/-- On a normal accumulator, one loop step runs the recursive deletion and
appends its events. -/
theorem hardDeleteStep_ok (rec : SysState → Nat → OpOut Unit)
    (acc : OpOut Unit) (c : Nat) (v : Unit) (h : acc.result = .ok v) :
    hardDeleteStep rec acc c =
      ⟨(rec acc.state c).state, (rec acc.state c).result,
        acc.trace ++ (rec acc.state c).trace⟩ := by
  simp [hardDeleteStep, h]

/-- The child loop only appends events to the accumulated trace. -/
theorem foldl_step_trace (rec : SysState → Nat → OpOut Unit) :
    ∀ (L : List Nat) (acc : OpOut Unit),
      ∃ t, (L.foldl (hardDeleteStep rec) acc).trace = acc.trace ++ t := by
  intro L
  induction L with
  | nil => intro acc; exact ⟨[], by simp⟩
  | cons c rest ih =>
    intro acc
    rw [List.foldl_cons]
    rcases he : acc.result with e | v
    · have hstep : hardDeleteStep rec acc c = acc := by simp [hardDeleteStep, he]
      rw [hstep]
      exact ih acc
    · rw [hardDeleteStep_ok rec acc c v he]
      obtain ⟨t, ht⟩ := ih ⟨(rec acc.state c).state, (rec acc.state c).result,
        acc.trace ++ (rec acc.state c).trace⟩
      exact ⟨(rec acc.state c).trace ++ t, by simp [ht]⟩

/-- The child loop only shrinks the tables and keeps the storage, provided
each recursive deletion does. -/
theorem foldl_step_shrinks (rec : SysState → Nat → OpOut Unit)
    (hrec : ∀ s2 c, Shrinks (rec s2 c).state s2) :
    ∀ (L : List Nat) (acc : OpOut Unit),
      Shrinks (L.foldl (hardDeleteStep rec) acc).state acc.state := by
  intro L
  induction L with
  | nil => intro acc; exact Shrinks.rfl _
  | cons c rest ih =>
    intro acc
    rw [List.foldl_cons]
    rcases he : acc.result with e | v
    · have hstep : hardDeleteStep rec acc c = acc := by simp [hardDeleteStep, he]
      rw [hstep]
      exact ih acc
    · rw [hardDeleteStep_ok rec acc c v he]
      exact (ih _).trans (hrec acc.state c)

/-- After a normally returning child loop, no folder row of any processed
id remains, provided each recursive deletion removes the rows of its own
target and only shrinks the tables. -/
theorem foldl_step_removed (rec : SysState → Nat → OpOut Unit)
    (hrec : ∀ s2 c, Shrinks (rec s2 c).state s2)
    (hself : ∀ s2 c, isOk (rec s2 c).result = true →
      ∀ fol ∈ (rec s2 c).state.db.folders, fol.id ≠ c) :
    ∀ (L : List Nat) (acc : OpOut Unit),
      isOk (L.foldl (hardDeleteStep rec) acc).result = true →
      ∀ cid ∈ L, ∀ fol ∈ (L.foldl (hardDeleteStep rec) acc).state.db.folders,
        fol.id ≠ cid := by
  intro L
  induction L with
  | nil =>
    intro acc h cid hc
    simp at hc
  | cons c rest ih =>
    intro acc hok cid hcid
    rw [List.foldl_cons] at hok ⊢
    have hacc1ok := foldl_step_acc_ok rec rest (hardDeleteStep rec acc c) hok
    rcases he : acc.result with e | v
    · have hstep : hardDeleteStep rec acc c = acc := by simp [hardDeleteStep, he]
      rw [hstep] at hacc1ok
      rw [he] at hacc1ok
      simp [isOk] at hacc1ok
    · rw [hardDeleteStep_ok rec acc c v he] at hok ⊢
      rcases List.mem_cons.1 hcid with hceq | hrest
      · have houtok : isOk (rec acc.state c).result = true := by
          rw [hardDeleteStep_ok rec acc c v he] at hacc1ok
          exact hacc1ok
        have hfols := hself acc.state c houtok
        have hshr := foldl_step_shrinks rec hrec rest
          ⟨(rec acc.state c).state, (rec acc.state c).result,
            acc.trace ++ (rec acc.state c).trace⟩
        intro fol hfol
        rw [hceq]
        exact hfols fol (hshr.2.1.subset hfol)
      · exact ih _ hok cid hrest

/-- After a normally returning child loop, the trace holds a folder-row
removal event for every processed id, provided each recursive deletion ends
its own trace with the removal of its target row. -/
theorem foldl_step_traced (rec : SysState → Nat → OpOut Unit)
    (hend : ∀ s2 c, isOk (rec s2 c).result = true →
      ∃ pre, (rec s2 c).trace = pre ++ [Event.folderRowRemove c]) :
    ∀ (L : List Nat) (acc : OpOut Unit),
      isOk (L.foldl (hardDeleteStep rec) acc).result = true →
      ∀ cid ∈ L,
        Event.folderRowRemove cid ∈ (L.foldl (hardDeleteStep rec) acc).trace := by
  intro L
  induction L with
  | nil =>
    intro acc h cid hc
    simp at hc
  | cons c rest ih =>
    intro acc hok cid hcid
    rw [List.foldl_cons] at hok ⊢
    have hacc1ok := foldl_step_acc_ok rec rest (hardDeleteStep rec acc c) hok
    rcases he : acc.result with e | v
    · have hstep : hardDeleteStep rec acc c = acc := by simp [hardDeleteStep, he]
      rw [hstep] at hacc1ok
      rw [he] at hacc1ok
      simp [isOk] at hacc1ok
    · rw [hardDeleteStep_ok rec acc c v he] at hok ⊢
      rcases List.mem_cons.1 hcid with hceq | hrest
      · have houtok : isOk (rec acc.state c).result = true := by
          rw [hardDeleteStep_ok rec acc c v he] at hacc1ok
          exact hacc1ok
        obtain ⟨pre, hpre⟩ := hend acc.state c houtok
        obtain ⟨t, ht⟩ := foldl_step_trace rec rest
          ⟨(rec acc.state c).state, (rec acc.state c).result,
            acc.trace ++ (rec acc.state c).trace⟩
        rw [ht, hceq]
        simp [hpre]
      · exact ih _ hok cid hrest

theorem shrinks_removeFolderRow (db : DB) (st : LocalState) (id : Nat) :
    Shrinks ⟨removeFolderRow db id, st⟩ ⟨db, st⟩ :=
  ⟨List.Sublist.refl _, List.filter_sublist _, rfl⟩

theorem shrinks_removeFilesOfFolder (db : DB) (st : LocalState) (id : Nat) :
    Shrinks ⟨removeFilesOfFolder db id, st⟩ ⟨db, st⟩ :=
  ⟨List.filter_sublist _, List.Sublist.refl _, rfl⟩

/-- The body of a hard delete only removes table rows and never touches the
physical storage, whatever the recursive child deletion does to its own
state, as long as it also only removes rows. -/
theorem hardDeleteCore_shrinks (rec : SysState → Nat → OpOut Unit)
    (hrec : ∀ s2 c, Shrinks (rec s2 c).state s2) (s : SysState) (id : Nat)
    (force : Bool) :
    Shrinks (FolderService.hardDeleteCore rec s id force).state s := by
  unfold FolderService.hardDeleteCore
  split
  · exact Shrinks.rfl s
  · dsimp only
    split
    · exact Shrinks.rfl s
    · split
      · have hXs : Shrinks ⟨removeFilesOfFolder s.db id, s.storage⟩ s :=
          shrinks_removeFilesOfFolder s.db s.storage id
        split
        · exact hXs
        · split
          · split
            · exact (foldl_step_shrinks rec hrec _ _).trans hXs
            · exact hXs
          · split
            · exact (shrinks_removeFolderRow _ _ id).trans
                ((foldl_step_shrinks rec hrec _ _).trans hXs)
            · exact (shrinks_removeFolderRow _ _ id).trans hXs
      · split
        · exact Shrinks.rfl s
        · split
          · split
            · exact foldl_step_shrinks rec hrec _ _
            · exact Shrinks.rfl s
          · split
            · exact (shrinks_removeFolderRow _ _ id).trans
                (foldl_step_shrinks rec hrec _ _)
            · exact shrinks_removeFolderRow _ _ id

/-- Every hard delete only removes table rows and keeps the storage. -/
theorem hardDelete_shrinks :
    ∀ (fuel : Nat) (s : SysState) (id : Nat) (force : Bool),
      Shrinks (FolderService.hardDelete fuel s id force).state s := by
  intro fuel
  induction fuel with
  | zero => intro s id force; exact Shrinks.rfl s
  | succ fuel ih =>
    intro s id force
    exact hardDeleteCore_shrinks _ (fun s2 c => ih s2 c true) s id force

/-- A normally returning hard delete has removed every folder row carrying
its target id. -/
theorem hardDeleteCore_self (rec : SysState → Nat → OpOut Unit)
    (s : SysState) (id : Nat) (force : Bool) :
    isOk (FolderService.hardDeleteCore rec s id force).result = true →
    ∀ fol ∈ (FolderService.hardDeleteCore rec s id force).state.db.folders,
      fol.id ≠ id := by
  unfold FolderService.hardDeleteCore
  split
  · intro h; simp [isOk] at h
  · dsimp only
    split
    · intro h; simp [isOk] at h
    · split
      · split
        · intro h; simp [isOk] at h
        · split
          · intro h; simp [isOk] at h
          · intro h fol hfol
            simp [removeFolderRow] at hfol
            exact hfol.2
      · split
        · intro h; simp [isOk] at h
        · split
          · intro h; simp [isOk] at h
          · intro h fol hfol
            simp [removeFolderRow] at hfol
            exact hfol.2

/-- A normally returning hard delete ends its event trace with the removal
of its target folder row. -/
theorem hardDeleteCore_trace_end (rec : SysState → Nat → OpOut Unit)
    (s : SysState) (id : Nat) (force : Bool) :
    isOk (FolderService.hardDeleteCore rec s id force).result = true →
    ∃ pre, (FolderService.hardDeleteCore rec s id force).trace =
      pre ++ [Event.folderRowRemove id] := by
  unfold FolderService.hardDeleteCore
  split
  · intro h; simp [isOk] at h
  · dsimp only
    split
    · intro h; simp [isOk] at h
    · split
      · split
        · intro h; simp [isOk] at h
        · split
          · intro h; simp [isOk] at h
          · intro h
            exact ⟨_, rfl⟩
      · split
        · intro h; simp [isOk] at h
        · split
          · intro h; simp [isOk] at h
          · intro h
            exact ⟨_, rfl⟩

/-- Final phase of the forced hard delete: on a normal loop outcome the
folder row is removed and its removal event appended, an error outcome
propagates. -/
def finishDelete (id : Nat) (after : OpOut Unit) : OpOut Unit :=
  match after.result with
  | .error e => ⟨after.state, .error e, after.trace⟩
  | .ok _ =>
    ⟨⟨removeFolderRow after.state.db id, after.state.storage⟩, .ok (),
      after.trace ++ [Event.folderRowRemove id]⟩

/-- Normal form of the forced branch of the hard-delete body: the file rows
of the folder are removed, every child folder is processed by the loop, and
the folder row removal finishes; established against the definition by
hardDeleteCore_force_eq. -/
def forcedDelete (rec : SysState → Nat → OpOut Unit) (s : SysState)
    (id : Nat) (tr1 : List Event) : OpOut Unit :=
  finishDelete id
    ((((removeFilesOfFolder s.db id).folders.filter
        (fun f => f.parentId == some id)).map (fun c => c.id)).foldl
      (hardDeleteStep rec)
      ⟨⟨removeFilesOfFolder s.db id, s.storage⟩, .ok (), tr1⟩)

/-- On a found folder, the forced hard-delete body computes the normal
form, for some initial event list. -/
theorem hardDeleteCore_force_eq (rec : SysState → Nat → OpOut Unit)
    (s : SysState) (id : Nat) (fol : FolderRec)
    (hfind : findFolderWithDeleted s.db id = some fol) :
    ∃ tr1, FolderService.hardDeleteCore rec s id true =
      forcedDelete rec s id tr1 := by
  rcases hb : decide ((s.db.files.filter
      (fun f => f.folderId == some id)).length > 0) with _ | _
  · refine ⟨[], ?_⟩
    have hX : removeFilesOfFolder s.db id = s.db := by
      have hlen : (s.db.files.filter (fun f => f.folderId == some id)).length = 0 := by
        simpa using of_decide_eq_false hb
      have hnil := List.length_eq_zero.mp hlen
      have hall := List.filter_eq_nil_iff.mp hnil
      unfold removeFilesOfFolder
      have : s.db.files.filter (fun f => !(f.folderId == some id)) = s.db.files := by
        apply List.filter_eq_self.mpr
        intro a ha
        simpa using hall a ha
      simp [this]
    unfold FolderService.hardDeleteCore forcedDelete
    simp only [hfind]
    simp only [Bool.not_true, Bool.and_false, Bool.false_eq_true, if_false,
      Bool.true_and, hb, hX]
    rcases hcb : decide ((s.db.folders.filter
        (fun f => f.parentId == some id)).length > 0) with _ | _
    · have hclen : (s.db.folders.filter (fun f => f.parentId == some id)).length = 0 := by
        simpa using of_decide_eq_false hcb
      have hcnil := List.length_eq_zero.mp hclen
      simp [hcb, hcnil, finishDelete]
    · simp [hcb, finishDelete]
  · refine ⟨[Event.filesOfFolderRemove id], ?_⟩
    unfold FolderService.hardDeleteCore forcedDelete
    simp only [hfind]
    simp only [Bool.not_true, Bool.and_false, Bool.false_eq_true, if_false,
      Bool.true_and, hb]
    rcases hcb : decide (((removeFilesOfFolder s.db id).folders.filter
        (fun f => f.parentId == some id)).length > 0) with _ | _
    · have hclen : ((removeFilesOfFolder s.db id).folders.filter
          (fun f => f.parentId == some id)).length = 0 := by
        simpa using of_decide_eq_false hcb
      have hcnil := List.length_eq_zero.mp hclen
      simp [hcb, hcnil, finishDelete]
    · simp [hcb, finishDelete]

/-- A normally returning final phase implies a normal loop outcome, keeps
the loop files, only removes the target id from the loop folders, and
appends the target removal event to the loop trace. -/
theorem finishDelete_shape (id : Nat) (after : OpOut Unit)
    (hok : isOk (finishDelete id after).result = true) :
    isOk after.result = true ∧
    (finishDelete id after).state.db.files = after.state.db.files ∧
    (∀ fol ∈ (finishDelete id after).state.db.folders,
      fol ∈ after.state.db.folders ∧ fol.id ≠ id) ∧
    (finishDelete id after).trace = after.trace ++ [Event.folderRowRemove id] := by
  rcases hres : after.result with e | v
  · simp [finishDelete, hres, isOk] at hok
  · refine ⟨by simp [hres, isOk], by simp [finishDelete, hres, removeFolderRow], ?_,
      by simp [finishDelete, hres]⟩
    intro fol hfol
    simp only [finishDelete, hres] at hfol
    simp [removeFolderRow] at hfol
    exact ⟨hfol.1, hfol.2⟩

/-- Outcome facts of a normally returning forced delete in normal form: no
file row of the folder remains, no folder row with the target id and no
child row remains, and the trace removes every child row before the target
row. -/
theorem forcedDelete_shape (rec : SysState → Nat → OpOut Unit)
    (hrecS : ∀ s2 c, Shrinks (rec s2 c).state s2)
    (hrecI : ∀ s2 c, isOk (rec s2 c).result = true →
      ∀ fol ∈ (rec s2 c).state.db.folders, fol.id ≠ c)
    (hrecE : ∀ s2 c, isOk (rec s2 c).result = true →
      ∃ pre, (rec s2 c).trace = pre ++ [Event.folderRowRemove c])
    (s : SysState) (id : Nat) (tr1 : List Event)
    (h : isOk (forcedDelete rec s id tr1).result = true) :
    (∀ f ∈ (forcedDelete rec s id tr1).state.db.files, f.folderId ≠ some id) ∧
    (∀ fol ∈ (forcedDelete rec s id tr1).state.db.folders,
      fol.id ≠ id ∧ fol.parentId ≠ some id) ∧
    (∃ pre, (forcedDelete rec s id tr1).trace = pre ++ [Event.folderRowRemove id] ∧
      ∀ fol ∈ s.db.folders, fol.parentId = some id →
        Event.folderRowRemove fol.id ∈ pre) := by
  unfold forcedDelete at h ⊢
  obtain ⟨hok2, hfiles_eq, hfols, htr⟩ := finishDelete_shape id _ h
  refine ⟨?_, ?_, ?_⟩
  · intro f hf
    rw [hfiles_eq] at hf
    have hf2 := (foldl_step_shrinks rec hrecS _ _).1.subset hf
    simp [removeFilesOfFolder] at hf2
    exact hf2.2
  · intro fol hfol
    obtain ⟨hmem, hneq⟩ := hfols fol hfol
    refine ⟨hneq, ?_⟩
    intro hpar
    have hmem2 := (foldl_step_shrinks rec hrecS _ _).2.1.subset hmem
    have hchild : fol.id ∈ ((removeFilesOfFolder s.db id).folders.filter
        (fun f => f.parentId == some id)).map (fun c => c.id) :=
      List.mem_map_of_mem _ (List.mem_filter.mpr ⟨hmem2, by simp [hpar]⟩)
    exact foldl_step_removed rec hrecS hrecI _ _ hok2 fol.id hchild fol hmem rfl
  · refine ⟨_, htr, ?_⟩
    intro fol hfmem hpar
    have hmem : fol ∈ (removeFilesOfFolder s.db id).folders := hfmem
    have hchild : fol.id ∈ ((removeFilesOfFolder s.db id).folders.filter
        (fun f => f.parentId == some id)).map (fun c => c.id) :=
      List.mem_map_of_mem _ (List.mem_filter.mpr ⟨hmem, by simp [hpar]⟩)
    exact foldl_step_traced rec hrecE _ _ hok2 fol.id hchild

/-- A normally returning hard delete at any fuel has removed every folder
row carrying its target id. -/
theorem hardDelete_self :
    ∀ (fuel : Nat) (s : SysState) (id : Nat) (force : Bool),
      isOk (FolderService.hardDelete fuel s id force).result = true →
      ∀ fol ∈ (FolderService.hardDelete fuel s id force).state.db.folders,
        fol.id ≠ id := by
  intro fuel
  cases fuel with
  | zero => intro s id force h; simp [FolderService.hardDelete, isOk] at h
  | succ fuel => intro s id force; exact hardDeleteCore_self _ s id force

/-- A normally returning hard delete at any fuel ends its trace with the
removal of its target folder row. -/
theorem hardDelete_trace_end :
    ∀ (fuel : Nat) (s : SysState) (id : Nat) (force : Bool),
      isOk (FolderService.hardDelete fuel s id force).result = true →
      ∃ pre, (FolderService.hardDelete fuel s id force).trace =
        pre ++ [Event.folderRowRemove id] := by
  intro fuel
  cases fuel with
  | zero => intro s id force h; simp [FolderService.hardDelete, isOk] at h
  | succ fuel => intro s id force; exact hardDeleteCore_trace_end _ s id force

/-- C3 counterexample: a folder holding one file whose backend object
exists; the forced hard delete returns normally and removes the file row
and the folder rows, child before parent, but the physical storage is
untouched: the contained file's backend object is not removed, because
FolderService.hardDelete deletes file rows with a database-only delete and
never invokes a storage strategy. -/
theorem c3_counterexample :
    (FolderService.hardDelete 5
      ⟨⟨[mkFile 1 100 (some 10) none none],
        [mkFolder 10 none 1 100 none, mkFolder 11 (some 10) 0 0 none]⟩,
       ⟨["up/f"]⟩⟩ 10 true).result = .ok () ∧
    (FolderService.hardDelete 5
      ⟨⟨[mkFile 1 100 (some 10) none none],
        [mkFolder 10 none 1 100 none, mkFolder 11 (some 10) 0 0 none]⟩,
       ⟨["up/f"]⟩⟩ 10 true).state.storage = ⟨["up/f"]⟩ ∧
    (FolderService.hardDelete 5
      ⟨⟨[mkFile 1 100 (some 10) none none],
        [mkFolder 10 none 1 100 none, mkFolder 11 (some 10) 0 0 none]⟩,
       ⟨["up/f"]⟩⟩ 10 true).state.db = ⟨[], []⟩ := by
  refine ⟨rfl, rfl, rfl⟩

/-- C3 amended: for a folder holding at least one file row, hardDelete with
force false throws the folder-not-empty conflict and changes nothing; with
force true a normal return means the physical storage is untouched (no
backend object is deleted) while every file row of the folder, the folder
row itself, and every child folder row are removed from the database, the
children recursively before the parent, whose removal event closes the
trace. -/
theorem c3_claim :
    (∀ (fuel : Nat) (s : SysState) (id : Nat) (fol : FolderRec),
      findFolderWithDeleted s.db id = some fol →
      (s.db.files.filter (fun f => f.folderId == some id)).length > 0 →
        FolderService.hardDelete (fuel + 1) s id false =
          ⟨s, .error (.folderNotEmpty id), []⟩) ∧
    (∀ (fuel : Nat) (s : SysState) (id : Nat),
      isOk (FolderService.hardDelete fuel s id true).result = true →
        (FolderService.hardDelete fuel s id true).state.storage = s.storage ∧
        (∀ f ∈ (FolderService.hardDelete fuel s id true).state.db.files,
          f.folderId ≠ some id) ∧
        (∀ fol ∈ (FolderService.hardDelete fuel s id true).state.db.folders,
          fol.id ≠ id ∧ fol.parentId ≠ some id) ∧
        (∃ pre, (FolderService.hardDelete fuel s id true).trace =
            pre ++ [Event.folderRowRemove id] ∧
          ∀ fol ∈ s.db.folders, fol.parentId = some id →
            Event.folderRowRemove fol.id ∈ pre)) := by
  constructor
  · intro fuel s id fol hfind hcount
    show FolderService.hardDeleteCore
      (fun s2 c => FolderService.hardDelete fuel s2 c true) s id false = _
    unfold FolderService.hardDeleteCore
    simp [hfind, decide_eq_true hcount]
  · intro fuel s id hok
    cases fuel with
    | zero => simp [FolderService.hardDelete, isOk] at hok
    | succ fuel =>
      have hcore : FolderService.hardDelete (fuel + 1) s id true =
          FolderService.hardDeleteCore
            (fun s2 c => FolderService.hardDelete fuel s2 c true) s id true := rfl
      rw [hcore] at hok ⊢
      rcases hfind : findFolderWithDeleted s.db id with _ | fol
      · have hnone : FolderService.hardDeleteCore
            (fun s2 c => FolderService.hardDelete fuel s2 c true) s id true =
            ⟨s, .error (.folderNotFound id), []⟩ := by
          unfold FolderService.hardDeleteCore
          simp [hfind]
        rw [hnone] at hok
        simp [isOk] at hok
      · have hshr := hardDeleteCore_shrinks
          (fun s2 c => FolderService.hardDelete fuel s2 c true)
          (fun s2 c => hardDelete_shrinks fuel s2 c true) s id true
        obtain ⟨tr1, heq⟩ := hardDeleteCore_force_eq
          (fun s2 c => FolderService.hardDelete fuel s2 c true) s id fol hfind
        rw [heq] at hok hshr ⊢
        have hshape := forcedDelete_shape
          (fun s2 c => FolderService.hardDelete fuel s2 c true)
          (fun s2 c => hardDelete_shrinks fuel s2 c true)
          (fun s2 c => hardDelete_self fuel s2 c true)
          (fun s2 c => hardDelete_trace_end fuel s2 c true)
          s id tr1 hok
        exact ⟨hshr.2.2, hshape.1, hshape.2.1, hshape.2.2⟩

/-- C3 witness: the theorem applied to a concrete folder with one file and
one child folder, with force false and with force true. -/
theorem c3_witness :
    FolderService.hardDelete 4
      ⟨⟨[mkFile 1 100 (some 10) none none],
        [mkFolder 10 none 1 100 none, mkFolder 11 (some 10) 0 0 none]⟩,
       ⟨["up/f"]⟩⟩ 10 false =
      ⟨⟨⟨[mkFile 1 100 (some 10) none none],
        [mkFolder 10 none 1 100 none, mkFolder 11 (some 10) 0 0 none]⟩,
       ⟨["up/f"]⟩⟩, .error (.folderNotEmpty 10), []⟩ ∧
    (FolderService.hardDelete 5
      ⟨⟨[mkFile 1 100 (some 10) none none],
        [mkFolder 10 none 1 100 none, mkFolder 11 (some 10) 0 0 none]⟩,
       ⟨["up/f"]⟩⟩ 10 true).state.storage = ⟨["up/f"]⟩ := by
  constructor
  · exact (c3_claim.1 3
      ⟨⟨[mkFile 1 100 (some 10) none none],
        [mkFolder 10 none 1 100 none, mkFolder 11 (some 10) 0 0 none]⟩,
       ⟨["up/f"]⟩⟩ 10 (mkFolder 10 none 1 100 none) (by decide) (by decide))
  · exact (c3_claim.2 5
      ⟨⟨[mkFile 1 100 (some 10) none none],
        [mkFolder 10 none 1 100 none, mkFolder 11 (some 10) 0 0 none]⟩,
       ⟨["up/f"]⟩⟩ 10 (by decide)).1

end FileUploader
